import Mathlib

/-!
Shallow embedding of the MyCoin chain-state and consensus engine
(`src/core/blockchain.js`, `src/consensus/dpos.js`) together with proofs
settling the specification claims about it.

Conventions of the embedding:
- JS numbers that only ever hold integers are modelled as `Int` (or `Nat`
  for lengths and indices); the block-reward computation, which performs
  fractional division, is modelled over `ℚ` (exact for the dyadic values
  the code produces).
- Object fields that the code may find `undefined` (checked via `typeof`
  in `isValidBlockStructure`) are modelled as `Option`; `none` stands for
  an absent/undefined field.  JS strict (in)equality `!==` on such fields
  coincides with decidable equality on `Option`.
- A JS function that can throw is modelled with an `Option` result
  (`none` = an exception escapes the call).
- `Map` objects are modelled as association lists in insertion order,
  matching the iteration order guaranteed by JS `Map`.
-/

namespace MyCoin

/-- Transaction record as consulted by the chain engine: `addTransaction`
reads `sender`, `recipient` and `amount`; pending-pool pruning reads
`hash` (falling back to `JSON.stringify` of the whole object). -/
structure Tx where
  sender : Option String
  recipient : Option String
  amount : Int
  hash : Option String
deriving DecidableEq, Repr

/-- JS `JSON.stringify` of a transaction object: fields in insertion
order, `undefined` fields omitted, as the fallback identity used in
pending-pool pruning. -/
def stringifyTx (tx : Tx) : String :=
  let fields :=
    (match tx.sender with
     | some s => ["\"sender\":\"" ++ s ++ "\""]
     | none => []) ++
    (match tx.recipient with
     | some r => ["\"recipient\":\"" ++ r ++ "\""]
     | none => []) ++
    ["\"amount\":" ++ toString tx.amount] ++
    (match tx.hash with
     | some h => ["\"hash\":\"" ++ h ++ "\""]
     | none => [])
  "\x7b" ++ String.intercalate "," fields ++ "\x7d"

/-- Transaction identity used when pruning the pending pool:
`tx.hash || JSON.stringify(tx)` — the hash when it is present and truthy
(a JS empty string is falsy), else the full-content serialization. -/
def txId (tx : Tx) : String :=
  match tx.hash with
  | some h => if h = "" then stringifyTx tx else h
  | none => stringifyTx tx

/-- Block record.  Fields whose presence `isValidBlockStructure` tests
with `typeof` are `Option`-valued (`none` = `undefined`); in particular
`transactions` is `Option (List Tx)`, since a block may carry no
transactions array at all — a shape on which `addBlock` throws when it
dereferences `block.transactions.map`. -/
structure Block where
  index : Option Int
  timestamp : Option Int
  transactions : Option (List Tx)
  previousHash : Option String
  hash : Option String
  validator : Option String
  signature : Option String
  difficulty : Option Int
  nonce : Option Int
deriving DecidableEq, Repr

/-- Chain engine state: the fields of `Blockchain` that any method
mutates.  `blockTime`, `maxSupply`, `blockReward` and `halvingInterval`
are set once by the constructor and never reassigned, so they are
embedded as the constants below. -/
structure Blockchain where
  chain : List Block
  currentTransactions : List Tx
  difficulty : Int
deriving DecidableEq, Repr

/-- Target block time in seconds (constructor constant). -/
def blockTime : Int := 3

/-- Maximum coin supply (constructor constant). -/
def maxSupply : Int := 100000000

/-- Initial block reward (constructor constant). -/
def blockReward : ℚ := 50

/-- Blocks until reward halving (constructor constant). -/
def halvingInterval : Nat := 840000

/-- A string of 64 zero characters: `"0".repeat(64)`. -/
def zeros64 : String := String.mk (List.replicate 64 '0')

/-- A string of 128 zero characters: `"0".repeat(128)`. -/
def zeros128 : String := String.mk (List.replicate 128 '0')

/-- Genesis block built by `createGenesisBlock`; its timestamp is
`Date.now()`, passed here as the external input `now`. -/
def createGenesisBlock (now : Int) : Block :=
  { index := some 0
    timestamp := some now
    transactions := some []
    previousHash := some zeros64
    hash := some zeros64
    validator := some "MyCoin Genesis"
    signature := some zeros128
    difficulty := some 4
    nonce := some 0 }

/-- State produced by the `Blockchain` constructor: empty pending pool,
difficulty 4, and the genesis block pushed onto the empty chain. -/
def initialBlockchain (now : Int) : Blockchain :=
  { chain := [createGenesisBlock now]
    currentTransactions := []
    difficulty := 4 }

/-- JS truthiness test `!x` for a string-or-undefined field: `undefined`
and the empty string are falsy. -/
def jsFalsyStr : Option String → Bool
  | none => true
  | some s => s = ""

/-- Guard of `addTransaction`: throws (`none`) when
`!transaction.sender || !transaction.recipient || transaction.amount <= 0`;
otherwise pushes the transaction onto the pending pool.  The source also
returns `getLatestBlock().index + 1`, a value no caller in the engine
consumes; it is not modelled. -/
def addTransaction (st : Blockchain) (tx : Tx) : Option Blockchain :=
  if jsFalsyStr tx.sender || jsFalsyStr tx.recipient || tx.amount ≤ 0 then
    none
  else
    some { st with currentTransactions := st.currentTransactions ++ [tx] }

/-- Basic transaction validation `isValidTransaction`:
`sender && recipient && amount > 0` coerced to a boolean. -/
def isValidTransaction (tx : Tx) : Bool :=
  !jsFalsyStr tx.sender && !jsFalsyStr tx.recipient && tx.amount > 0

/-- Structure check `isValidBlockStructure`: `typeof`-tests on six
fields, in source order (`index`, `timestamp`, `transactions`,
`previousHash`, `hash`, `validator`); with the `Option` encoding a
field passes its `typeof` test exactly when it is present. -/
def isValidBlockStructure (b : Block) : Bool :=
  b.index.isSome && b.timestamp.isSome && b.transactions.isSome &&
  b.previousHash.isSome && b.hash.isSome && b.validator.isSome

/-- Current mining reward `getCurrentBlockReward`:
`blockReward / 2^min(floor(len(chain) / halvingInterval), 64)`.
The JS floating-point division is exact for these dyadic values, so ℚ
models it faithfully. -/
def getCurrentBlockReward (st : Blockchain) : ℚ :=
  blockReward / 2 ^ min (st.chain.length / halvingInterval) 64

instance : Inhabited Block :=
  ⟨{ index := none, timestamp := none, transactions := none,
     previousHash := none, hash := none, validator := none,
     signature := none, difficulty := none, nonce := none }⟩

/-- Difficulty adjustment `adjustDifficulty`: with at least two blocks,
compare the elapsed time between the last two block timestamps to
`blockTime * 1000` ms; faster than half the target increments the
difficulty, slower than twice the target decrements it (floored at 1).
When either timestamp is `undefined` the JS subtraction yields `NaN`,
both comparisons are false, and the difficulty is unchanged. -/
def adjustDifficulty (st : Blockchain) : Blockchain :=
  if st.chain.length ≤ 1 then st
  else
    match (st.chain.getLastD default).timestamp,
          (st.chain.getD (st.chain.length - 2) default).timestamp with
    | some t2, some t1 =>
      if 2 * (t2 - t1) < blockTime * 1000 then
        { st with difficulty := st.difficulty + 1 }
      else if t2 - t1 > blockTime * 1000 * 2 then
        { st with difficulty := max 1 (st.difficulty - 1) }
      else st
    | _, _ => st

/-- Block appended by `addBlock`: the input block with its `index`
re-stamped to the chain length and its `previousHash` pointing at the
tip (the source only assigns `previousHash` when it differs, which is
the same result). -/
def restampedBlock (st : Blockchain) (prev : Block) (b : Block) : Block :=
  { b with index := some (st.chain.length : Int), previousHash := prev.hash }

/-- Append a block: `addBlock(block, validator, signature)`.  Re-stamps
`block.index = chain.length`; silently overwrites a mismatched
`previousHash` with the tip's hash; pushes the block; prunes from the
pending pool every transaction whose identity (`hash || stringify`)
occurs in the new block; adjusts difficulty; returns `true`.  The
`validator` and `signature` parameters are accepted and ignored, as in
the source.  `none` models an exception escaping the call: the
`TypeError` JS raises on an empty chain (`getLatestBlock()` returns
`undefined`; never occurs on a constructed engine), and the `TypeError`
at `block.transactions.map` when the block carries no transactions
array — that throw happens after `chain.push`, so the caller sees an
exception rather than a result while the chain was already mutated. -/
def addBlock (st : Blockchain) (b : Block) (_validatorArg _sigArg : String) :
    Option (Bool × Blockchain) :=
  match st.chain.getLast? with
  | none => none
  | some previousBlock =>
    let block := restampedBlock st previousBlock b
    match block.transactions with
    | none => none
    | some txs =>
      let txHashes := txs.map txId
      let pending := st.currentTransactions.filter
        (fun tx => !txHashes.contains (txId tx))
      some (true, adjustDifficulty
        { st with chain := st.chain ++ [block], currentTransactions := pending })

/-- Per-block portion of chain validation: for each `i ≥ 1`,
`chain[i].previousHash === chain[i-1].hash` and structural validity of
`chain[i]`. -/
def validFrom (prev : Block) : List Block → Bool
  | [] => true
  | b :: rest =>
    decide (b.previousHash = prev.hash) && isValidBlockStructure b &&
    validFrom b rest

/-- Linkage/structure loop of `isValidChain` over a whole candidate. -/
def chainWf : List Block → Bool
  | [] => true
  | g :: rest => validFrom g rest

/-- External-chain validation `isValidChain`: the candidate's first
element must serialize identically to the local genesis block
(`JSON.stringify` equality, which on these records coincides with
structural equality), then every later block must link to its
predecessor and be structurally valid. -/
def isValidChain (st : Blockchain) (c : List Block) : Bool :=
  decide (c.head? = st.chain.head?) && chainWf c

/-- Reorg pool rebuild `reprocessPendingTransactions`: copy the pending
pool, clear it, and push every copied transaction back through
`addTransaction`; `none` when one of them fails re-validation and the
exception escapes. -/
def readdAll (st : Blockchain) : List Tx → Option Blockchain
  | [] => some st
  | tx :: rest =>
    match addTransaction st tx with
    | none => none
    | some st' => readdAll st' rest

/-- See `readdAll`: the whole `reprocessPendingTransactions` call. -/
def reprocessPendingTransactions (st : Blockchain) : Option Blockchain :=
  readdAll { st with currentTransactions := [] } st.currentTransactions

/-- Fork choice `replaceChain(newChain)`: reject (`false`, state
untouched) unless the candidate is strictly longer and `isValidChain`
accepts it; on success install the candidate wholesale and rebuild the
pending pool.  `none` models an exception escaping from the rebuild. -/
def replaceChain (st : Blockchain) (newChain : List Block) :
    Option (Bool × Blockchain) :=
  if newChain.length ≤ st.chain.length then some (false, st)
  else if !isValidChain st newChain then some (false, st)
  else
    (reprocessPendingTransactions { st with chain := newChain }).map
      (fun st' => (true, st'))

/-- DPoS consensus state (`DPoSConsensus`).  `votes` is the JS `Map`
from delegate address to accumulated stake, kept in insertion order. -/
structure DPoS where
  delegateCount : Nat
  blockTime : Int
  epochLength : Nat
  activeDelegates : List String
  standbyDelegates : List String
  votes : List (String × Int)
  delegateSchedule : List String
  currentProducer : Nat
  lastBlockTime : Int
deriving DecidableEq, Repr

/-- State produced by the `DPoSConsensus` constructor with the defaults
(`delegateCount` 21, `blockTime` 3 s, `epochLength` 10080). -/
def initialDPoS : DPoS :=
  { delegateCount := 21
    blockTime := 3
    epochLength := 10080
    activeDelegates := []
    standbyDelegates := []
    votes := []
    delegateSchedule := []
    currentProducer := 0
    lastBlockTime := 0 }

/-- JS `Map.get` on the vote ledger. -/
def mapGet (m : List (String × Int)) (k : String) : Option Int :=
  (m.find? (fun p => p.1 = k)).map (fun p => p.2)

/-- JS `Map.set`: update the value in place when the key is present
(keeping its position), otherwise append the new entry at the end. -/
def mapSet : List (String × Int) → String → Int → List (String × Int)
  | [], k, v => [(k, v)]
  | (k', v') :: rest, k, v =>
    if k' = k then (k, v) :: rest else (k', v') :: mapSet rest k v

/-- JS `Map.delete`: remove the (unique) entry with the given key. -/
def mapDelete : List (String × Int) → String → List (String × Int)
  | [], _ => []
  | (k', v') :: rest, k =>
    if k' = k then rest else (k', v') :: mapDelete rest k

/-- Stake-weighted vote registration `registerVote(voter, delegate,
stake)`: add `stake` to the delegate's running total, creating the entry
when absent.  The `voter` argument is accepted and ignored by the
source. -/
def registerVote (st : DPoS) (_voter delegate : String) (stake : Int) : DPoS :=
  let currentStake := (mapGet st.votes delegate).getD 0
  { st with votes := mapSet st.votes delegate (currentStake + stake) }

/-- Vote removal `removeVote(voter, delegate, stake)`: subtract, clamped
at 0 with `Math.max`; delete the entry entirely when the new stake is
exactly 0. -/
def removeVote (st : DPoS) (_voter delegate : String) (stake : Int) : DPoS :=
  let currentStake := (mapGet st.votes delegate).getD 0
  let newStake := max 0 (currentStake - stake)
  if newStake = 0 then
    { st with votes := mapDelete st.votes delegate }
  else
    { st with votes := mapSet st.votes delegate newStake }

/-- Stable insertion of an entry into a stake-descending list: the new
entry goes after every entry of greater-or-equal stake, mirroring the
stable JS `Array.sort` with comparator `(a, b) => b[1] - a[1]`. -/
def insertByStake (x : String × Int) : List (String × Int) → List (String × Int)
  | [] => [x]
  | y :: rest => if y.2 < x.2 then x :: y :: rest else y :: insertByStake x rest

/-- Stable sort of the vote entries, descending by stake; entries of
equal stake keep their `Map` insertion order (JS `Array.sort` is
specified stable). -/
def sortByStakeDesc (l : List (String × Int)) : List (String × Int) :=
  l.foldl (fun acc x => insertByStake x acc) []

/-- Value of one hex digit, as consumed by `parseInt(s, 16)`. -/
def hexVal (c : Char) : Nat :=
  if '0' ≤ c ∧ c ≤ '9' then c.toNat - 48
  else if 'a' ≤ c ∧ c ≤ 'f' then c.toNat - 87
  else if 'A' ≤ c ∧ c ≤ 'F' then c.toNat - 55
  else 0

/-- The `parseInt(seed.substring(start, start + 8), 16)` step of the
shuffle: parse eight hex characters of the seed starting at `start`
(the seed is a SHA-256 hex digest, so every character is a hex digit). -/
def parseHex8 (seed : String) (start : Nat) : Nat :=
  ((seed.data.drop start).take 8).foldl (fun a c => 16 * a + hexVal c) 0

/-- Swap the elements at positions `i` and `j` of a list
(`[a[i], a[j]] = [a[j], a[i]]`). -/
def swapList (l : List String) (i j : Nat) : List String :=
  let vi := l.getD i ""
  let vj := l.getD j ""
  (l.set i vj).set j vi

/-- Fisher–Yates loop of `shuffleDelegates`, iterating `i` from
`delegates.length - 1` down to 1 with swap index
`j = parseInt(seed.substring(i % 32, i % 32 + 8), 16) % (i + 1)`. -/
def fisherYates (seed : String) : Nat → List String → List String
  | 0, arr => arr
  | i + 1, arr =>
    let j := parseHex8 seed ((i + 1) % 32) % (i + 2)
    fisherYates seed i (swapList arr (i + 1) j)

/-- Pseudo-random delegate shuffle `shuffleDelegates`.  In the source
the seed is `sha256(Date.now().toString())` — a digest of the current
wall-clock time, an input external to the chain state — so the seed hex
string is taken here as a parameter. -/
def shuffleDelegates (seed : String) (delegates : List String) : List String :=
  fisherYates seed (delegates.length - 1) delegates

/-- Schedule creation `createDelegateSchedule`: shuffle a copy of the
active delegates and reset the producer cursor. -/
def createDelegateSchedule (st : DPoS) (seed : String) : DPoS :=
  { st with delegateSchedule := shuffleDelegates seed st.activeDelegates
            currentProducer := 0 }

/-- Epoch-boundary delegate update `updateDelegates`: sort the vote
entries descending by stake (stable, so equal stakes keep Map insertion
order), take the top `delegateCount` as active and the rest as standby,
then rebuild the schedule. -/
def updateDelegates (st : DPoS) (seed : String) : DPoS :=
  let sortedDelegates := (sortByStakeDesc st.votes).map (fun p => p.1)
  createDelegateSchedule
    { st with activeDelegates := sortedDelegates.take st.delegateCount
              standbyDelegates := sortedDelegates.drop st.delegateCount }
    seed

/-- Authorization check `isAuthorized(validator, timestamp)`: the source
returns `true` unconditionally ("For demo purposes, we'll allow any
validator") before any other statement runs. -/
def isAuthorized (_st : DPoS) (_validator : String) (_timestamp : Int) : Bool :=
  true

/-- Statements of `isAuthorized` that follow its unconditional `return
true` (unreachable in the source): membership in the active set, then
slot computation `floor((timestamp - lastBlockTime) / (blockTime * 1000))`
and comparison against `schedule[(currentProducer + slot) % len]`.  JS
`%` truncates (sign of the dividend) and an out-of-range or fractional
array index reads `undefined`. -/
def isAuthorizedSlotCheck (st : DPoS) (validator : String) (timestamp : Int) :
    Bool :=
  if !st.activeDelegates.contains validator then false
  else
    let currentSlot : Int :=
      Int.fdiv (timestamp - st.lastBlockTime) (st.blockTime * 1000)
    let len : Int := st.delegateSchedule.length
    if len = 0 then false
    else
      let idx : Int := Int.tmod ((st.currentProducer : Int) + currentSlot) len
      let expectedProducer : Option String :=
        if 0 ≤ idx ∧ idx < len then some (st.delegateSchedule.getD idx.toNat "")
        else none
      some validator = expectedProducer

/-! ## Vote-operation sequences

The spec's VoteLedger invariant quantifies over arbitrary sequences of
`registerVote`/`removeVote` calls; the following reifies such call
sequences. -/

/-- One call to `registerVote` or `removeVote`. -/
inductive VoteOp where
  | reg (voter delegate : String) (stake : Int)
  | rem (voter delegate : String) (stake : Int)
deriving DecidableEq, Repr

/-- Apply one vote operation to the consensus state. -/
def applyVoteOp (st : DPoS) : VoteOp → DPoS
  | .reg v d s => registerVote st v d s
  | .rem v d s => removeVote st v d s

/-- Run a sequence of vote operations from the freshly constructed
consensus state (whose ledger is empty). -/
def applyVoteOps (ops : List VoteOp) : DPoS :=
  ops.foldl applyVoteOp initialDPoS

/-- A `registerVote` call with a strictly positive stake delta
(`removeVote` calls are unrestricted). -/
def regStakePos : VoteOp → Bool
  | .reg _ _ s => 0 < s
  | .rem _ _ _ => true

/-- A delegate's stake as read from the ledger (0 when absent). -/
def stakeOf (st : DPoS) (d : String) : Int :=
  (mapGet st.votes d).getD 0

/-- Whether the ledger holds an entry for a delegate (`Map.has`). -/
def hasDelegate (st : DPoS) (d : String) : Bool :=
  st.votes.any (fun p => p.1 = d)

/-! ## Concrete states, blocks and transactions used in the theorems -/

/-- Seed hex digest consisting of 64 zero characters. -/
def seedZeros : String := zeros64

/-- Seed hex digest whose characters 1–8 parse to 1. -/
def seedOneAt : String := "000000001" ++ String.mk (List.replicate 55 '0')

/-- Ledger with two equal-stake delegates, `B` registered before `A`,
and a single active slot. -/
def tieVotes : DPoS :=
  registerVote (registerVote { initialDPoS with delegateCount := 1 } "v" "B" 10)
    "v" "A" 10

/-- Example-scenario ledger: `A` with 20000, `B` with 15000, one slot. -/
def exampleTwoVotes : DPoS :=
  registerVote
    (registerVote { initialDPoS with delegateCount := 1 } "v" "A" 20000)
    "v" "B" 15000

/-- Consensus state whose schedule holds `A` alone. -/
def scheduleAOnly : DPoS :=
  { initialDPoS with
      activeDelegates := ["A"], delegateSchedule := ["A"],
      votes := [("A", 20000)] }

/-- A pending transaction carrying a hash. -/
def pendingTxOne : Tx :=
  { sender := some "s", recipient := some "r", amount := 5, hash := some "h1" }

/-- A second pending transaction with a different hash. -/
def pendingTxTwo : Tx :=
  { sender := some "s2", recipient := some "r2", amount := 6, hash := some "h2" }

/-- A well-formed non-genesis block that contains `pendingTxOne` and
links to the genesis block. -/
def blockWithTxOne : Block :=
  { index := some 1, timestamp := some 5, transactions := some [pendingTxOne],
    previousHash := some zeros64, hash := some "hB", validator := some "V",
    signature := some "sg", difficulty := some 1, nonce := some 0 }

/-- Engine state holding the genesis chain and `pendingTxOne` pending. -/
def statePoolOne : Blockchain :=
  { chain := [createGenesisBlock 0], currentTransactions := [pendingTxOne],
    difficulty := 4 }

/-- The state `replaceChain` produces from `statePoolOne` when it
accepts the two-block candidate ending in `blockWithTxOne`. -/
def stateAfterReorg : Blockchain :=
  { chain := [createGenesisBlock 0, blockWithTxOne],
    currentTransactions := [pendingTxOne], difficulty := 4 }

/-- A structurally valid block whose `index` field carries the bogus
value 99; `isValidChain` accepts it because no index check exists. -/
def blockIndex99 : Block :=
  { index := some 99, timestamp := some 5, transactions := some [],
    previousHash := some zeros64, hash := some "h99", validator := some "V",
    signature := some "s", difficulty := some 1, nonce := some 0 }

/-- Engine state after adopting the candidate `[genesis, blockIndex99]`. -/
def stateIndex99 : Blockchain :=
  { chain := [createGenesisBlock 0, blockIndex99],
    currentTransactions := [], difficulty := 4 }

/-- A block with a mismatched `previousHash`, submitted to `addBlock`
on top of `stateIndex99`. -/
def blockNext : Block :=
  { index := some 7, timestamp := some 9, transactions := some [],
    previousHash := some "garbage", hash := some "hN", validator := some "W",
    signature := some "s2", difficulty := some 1, nonce := some 0 }

/-- A well-formed block extending the genesis chain (reorg witness). -/
def blockLinked : Block :=
  { index := some 1, timestamp := some 5, transactions := some [],
    previousHash := some zeros64, hash := some "wh", validator := some "V",
    signature := some "sg", difficulty := some 1, nonce := some 0 }

/-- A block with a mismatched `previousHash` carrying `pendingTxOne`. -/
def blockMismatch : Block :=
  { index := some 7, timestamp := some 9, transactions := some [pendingTxOne],
    previousHash := some "garbage", hash := some "hN", validator := some "W",
    signature := some "s2", difficulty := some 1, nonce := some 0 }

/-- Engine state with two pending transactions on the genesis chain. -/
def statePoolTwo : Blockchain :=
  { chain := [createGenesisBlock 0],
    currentTransactions := [pendingTxOne, pendingTxTwo], difficulty := 4 }

/-- A submission with no `sender` field at all. -/
def txMissingSender : Tx :=
  { sender := none, recipient := some "r", amount := 5, hash := none }

/-- A submission whose `sender` is present but is the empty string. -/
def txEmptySender : Tx :=
  { sender := some "", recipient := some "r", amount := 5, hash := none }

/-- A block with every checked field absent (`undefined`): structurally
invalid, and in particular carrying no transactions array. -/
def blockNoFields : Block :=
  { index := none, timestamp := none, transactions := none,
    previousHash := none, hash := none, validator := none,
    signature := none, difficulty := none, nonce := none }

/-- A block carrying an (empty) transactions array but with every other
checked field absent: still structurally invalid, yet appendable. -/
def blockOnlyTxs : Block :=
  { index := none, timestamp := none, transactions := some [],
    previousHash := none, hash := none, validator := none,
    signature := none, difficulty := none, nonce := none }

/-- A chain of exactly `halvingInterval` blocks. -/
def stateHalvingOne : Blockchain :=
  { chain := List.replicate halvingInterval default,
    currentTransactions := [], difficulty := 4 }

/-- Vote-operation sequence: register 20000 for `A`, 15000 for `B`,
then remove `B`'s 15000 entirely. -/
def voteOpsExample : List VoteOp :=
  [VoteOp.reg "v" "A" 20000, VoteOp.reg "v" "B" 15000,
   VoteOp.rem "v" "B" 15000]

/-! ## Helper lemmas -/

theorem addTransaction_of_valid (st : Blockchain) (tx : Tx)
    (h : isValidTransaction tx = true) :
    addTransaction st tx =
      some { st with currentTransactions := st.currentTransactions ++ [tx] } := by
  simp only [isValidTransaction, Bool.and_eq_true, Bool.not_eq_true',
    decide_eq_true_eq] at h
  obtain ⟨⟨h1, h2⟩, h3⟩ := h
  simp [addTransaction, h1, h2, not_le.mpr h3]

theorem readdAll_of_valid :
    ∀ (l : List Tx) (st : Blockchain),
      (∀ tx ∈ l, isValidTransaction tx = true) →
      readdAll st l =
        some { st with currentTransactions := st.currentTransactions ++ l }
  | [], st, _ => by simp [readdAll]
  | tx :: rest, st, h => by
    rw [readdAll, addTransaction_of_valid st tx (h tx (by simp))]
    show readdAll _ rest = _
    rw [readdAll_of_valid rest _ (fun t ht => h t (by simp [ht]))]
    simp

theorem reprocess_of_valid (st : Blockchain)
    (h : ∀ tx ∈ st.currentTransactions, isValidTransaction tx = true) :
    reprocessPendingTransactions st = some st := by
  unfold reprocessPendingTransactions
  rw [readdAll_of_valid _ _ h]
  simp

theorem adjustDifficulty_chain (st : Blockchain) :
    (adjustDifficulty st).chain = st.chain := by
  unfold adjustDifficulty
  repeat' split
  all_goals rfl

theorem adjustDifficulty_pool (st : Blockchain) :
    (adjustDifficulty st).currentTransactions = st.currentTransactions := by
  unfold adjustDifficulty
  repeat' split
  all_goals rfl

/-- Full characterization of `replaceChain` on a state whose pending
pool passes re-validation (the only kind of state the engine can build,
since every pool entry was admitted by `addTransaction`). -/
theorem replaceChain_eq (st : Blockchain) (c : List Block)
    (h : st.currentTransactions.all isValidTransaction = true) :
    replaceChain st c =
      if st.chain.length < c.length ∧ c.head? = st.chain.head? ∧ chainWf c = true
      then some (true, { st with chain := c })
      else some (false, st) := by
  rw [List.all_eq_true] at h
  unfold replaceChain
  by_cases hlen : c.length ≤ st.chain.length
  · rw [if_pos hlen, if_neg (fun hc => absurd hc.1 (not_lt.mpr hlen))]
  · rw [if_neg hlen]
    by_cases hv : isValidChain st c = true
    · have hparts := hv
      rw [isValidChain, Bool.and_eq_true, decide_eq_true_eq] at hparts
      rw [if_neg (by simp [hv]), reprocess_of_valid { st with chain := c } h,
        if_pos ⟨not_le.mp hlen, hparts.1, hparts.2⟩]
      rfl
    · rw [if_pos (by simp [Bool.eq_false_iff.mpr hv]), if_neg]
      intro hc
      apply hv
      rw [isValidChain, Bool.and_eq_true, decide_eq_true_eq]
      exact ⟨hc.2.1, hc.2.2⟩

/-! ## Claim theorems -/

/-- C1: `considerChain` (`replaceChain`) accepts and replaces the local
chain if and only if the candidate is strictly longer, starts with the
local genesis block, and passes per-block chain validation; on any
failed condition it returns `false` leaving the state untouched, and on
acceptance the local chain becomes the candidate (so the local length
equals the candidate's length).  The hypothesis — every pending
transaction passes `isValidTransaction` — holds for every state the
engine can reach, since the pool is only ever filled through
`addTransaction`. -/
theorem considerChain_accepts_iff (st : Blockchain) (c : List Block)
    (h : st.currentTransactions.all isValidTransaction = true) :
    (replaceChain st c = some (true, { st with chain := c }) ↔
      (st.chain.length < c.length ∧ c.head? = st.chain.head? ∧
        chainWf c = true)) ∧
    (¬ (st.chain.length < c.length ∧ c.head? = st.chain.head? ∧
        chainWf c = true) →
      replaceChain st c = some (false, st)) ∧
    ({ st with chain := c } : Blockchain).chain.length = c.length := by
  have he := replaceChain_eq st c h
  refine ⟨⟨fun hr => ?_, fun hcond => by rw [he, if_pos hcond]⟩,
    fun hcond => by rw [he, if_neg hcond], rfl⟩
  by_contra hcond
  rw [he, if_neg hcond] at hr
  simp at hr

/-- Witness for C1 at a concrete state: the fresh engine accepts a
two-block candidate sharing its genesis. -/
theorem considerChain_accepts_iff_witness :
    (initialBlockchain 0).currentTransactions.all isValidTransaction = true ∧
    replaceChain (initialBlockchain 0) [createGenesisBlock 0, blockLinked] =
      some (true, { initialBlockchain 0 with
                      chain := [createGenesisBlock 0, blockLinked] }) :=
  ⟨by decide,
    (considerChain_accepts_iff (initialBlockchain 0)
      [createGenesisBlock 0, blockLinked] (by decide)).1.mpr (by decide)⟩

/-- C6: the block reward at chain height `halvingInterval * k` is
`blockReward / 2^min(k, 64)`, and in general the reward is
`blockReward / 2^min(floor(height / halvingInterval), 64)`. -/
theorem currentBlockReward_halving (st : Blockchain) (k : Nat)
    (h : st.chain.length = halvingInterval * k) :
    getCurrentBlockReward st = blockReward / 2 ^ min k 64 ∧
    getCurrentBlockReward st =
      blockReward / 2 ^ min (st.chain.length / halvingInterval) 64 := by
  refine ⟨?_, rfl⟩
  unfold getCurrentBlockReward
  rw [h, Nat.mul_div_cancel_left k (show 0 < halvingInterval by decide)]

/-- Witness for C6 at `k = 1`: a chain of exactly `halvingInterval`
blocks pays half the initial reward. -/
theorem currentBlockReward_halving_witness :
    stateHalvingOne.chain.length = halvingInterval * 1 ∧
    getCurrentBlockReward stateHalvingOne = 25 := by
  have hlen : stateHalvingOne.chain.length = halvingInterval * 1 := by
    simp [stateHalvingOne]
  refine ⟨hlen, ?_⟩
  rw [(currentBlockReward_halving stateHalvingOne 1 hlen).1]
  norm_num [blockReward, min_def]

/-- C8 counterexample: `pendingTxOne` sits in the pending pool and also
inside the accepted candidate chain, yet after the reorg it is still in
the pool — the code re-admits every pending transaction without
filtering against the new chain, contradicting the claim that the pool
keeps exactly the transactions not present in the new chain. -/
theorem considerChain_no_dedup_cex :
    blockWithTxOne.transactions = some [pendingTxOne] ∧
    replaceChain statePoolOne [createGenesisBlock 0, blockWithTxOne] =
      some (true, stateAfterReorg) ∧
    stateAfterReorg.currentTransactions = [pendingTxOne] := by decide

/-- C8 amended: on acceptance the pending pool afterwards contains
exactly the transactions that were pending before — every one of them
is re-admitted, including those already included in the new chain. -/
theorem considerChain_readds_all_pending (st : Blockchain) (c : List Block)
    (st' : Blockchain)
    (hpool : st.currentTransactions.all isValidTransaction = true)
    (hacc : replaceChain st c = some (true, st')) :
    st'.currentTransactions = st.currentTransactions := by
  rw [replaceChain_eq st c hpool] at hacc
  by_cases hcond : (st.chain.length < c.length ∧ c.head? = st.chain.head? ∧
      chainWf c = true)
  · rw [if_pos hcond] at hacc
    simp only [Option.some.injEq, Prod.mk.injEq, true_and] at hacc
    rw [← hacc]
  · rw [if_neg hcond] at hacc
    simp at hacc

/-- Witness for C8's amended statement on the concrete reorg of
`considerChain_no_dedup_cex`. -/
theorem considerChain_readds_all_pending_witness :
    replaceChain statePoolOne [createGenesisBlock 0, blockWithTxOne] =
      some (true, stateAfterReorg) ∧
    stateAfterReorg.currentTransactions = statePoolOne.currentTransactions :=
  ⟨by decide,
    considerChain_readds_all_pending statePoolOne
      [createGenesisBlock 0, blockWithTxOne] stateAfterReorg
      (by decide) (by decide)⟩

/-- C9 counterexample: a transaction whose `sender` field is present
(the empty string) with a positive amount is nevertheless rejected,
because the code tests JS truthiness (`!transaction.sender`), not field
presence — contradicting "fails iff sender missing / recipient missing
/ amount ≤ 0". -/
theorem addTransaction_rejects_empty_sender_cex :
    txEmptySender.sender ≠ none ∧ txEmptySender.recipient ≠ none ∧
    0 < txEmptySender.amount ∧
    addTransaction (initialBlockchain 0) txEmptySender = none := by decide

/-- C9 amended: submission fails (the `Invalid transaction` error is
thrown, so nothing is queued) iff the sender is missing *or empty*, the
recipient is missing *or empty*, or the amount is non-positive; on
success the transaction is appended to the pending pool. -/
theorem addTransaction_rejects_iff (st : Blockchain) (tx : Tx) :
    (addTransaction st tx = none ↔
      (jsFalsyStr tx.sender = true ∨ jsFalsyStr tx.recipient = true ∨
        tx.amount ≤ 0)) ∧
    (addTransaction st tx = none ∨
      addTransaction st tx =
        some { st with
                 currentTransactions := st.currentTransactions ++ [tx] }) := by
  have hb : (jsFalsyStr tx.sender || jsFalsyStr tx.recipient ||
      decide (tx.amount ≤ 0)) = true ↔
      (jsFalsyStr tx.sender = true ∨ jsFalsyStr tx.recipient = true ∨
        tx.amount ≤ 0) := by
    simp [Bool.or_eq_true, or_assoc]
  unfold addTransaction
  by_cases hcond : (jsFalsyStr tx.sender || jsFalsyStr tx.recipient ||
      decide (tx.amount ≤ 0)) = true
  · rw [if_pos hcond]
    exact ⟨⟨fun _ => hb.mp hcond, fun _ => rfl⟩, Or.inl rfl⟩
  · rw [if_neg hcond]
    exact ⟨⟨fun hfalse => absurd hfalse (by simp),
      fun hor => absurd (hb.mpr hor) hcond⟩, Or.inr rfl⟩

/-- Witness for C9's amended statement: a sender-less submission is
rejected. -/
theorem addTransaction_rejects_iff_witness :
    addTransaction (initialBlockchain 0) txMissingSender = none :=
  (addTransaction_rejects_iff (initialBlockchain 0) txMissingSender).1.mpr
    (Or.inl (by decide))

/-- C10 counterexample: on a block with no transactions array — one of
the structurally invalid shapes `isValidBlockStructure` would flag —
`addBlock` does *not* return `true`: the dereference
`block.transactions.map` throws a `TypeError` and the exception escapes
the call, refuting "never fails for every input block regardless of its
structural validity". -/
theorem addBlock_no_transactions_cex :
    blockNoFields.transactions = none ∧
    isValidBlockStructure blockNoFields = false ∧
    addBlock (initialBlockchain 0) blockNoFields "x" "y" = none := by decide

/-- C10 amended: on any engine state that has a tip, `addBlock` returns
`true` and grows the chain by exactly one block for every input block
that carries a transactions array, with every other field arbitrary —
invalid structure, wrong hash, bogus signature, absent timestamp or
validator; `isValidBlockStructure` and signature verification are never
consulted.  Only a block with no transactions array makes the call
fail, via a `TypeError` raised when pruning the pool, not via any
validation. -/
theorem addBlock_always_succeeds (st : Blockchain) (b : Block)
    (v s : String) (h : st.chain ≠ [])
    (htx : b.transactions.isSome = true) :
    (addBlock st b v s).map (fun r => (r.1, r.2.chain.length)) =
      some (true, st.chain.length + 1) := by
  obtain ⟨prev, hprev⟩ :=
    Option.isSome_iff_exists.mp ((List.getLast?_isSome).mpr h)
  obtain ⟨txs, htxs⟩ := Option.isSome_iff_exists.mp htx
  simp [addBlock, restampedBlock, hprev, htxs, adjustDifficulty_chain]

/-- Witness for C10's amended statement: a block whose five other
checked fields are all `undefined` — hence structurally invalid — is
still appended with result `true`. -/
theorem addBlock_always_succeeds_witness :
    isValidBlockStructure blockOnlyTxs = false ∧
    (addBlock (initialBlockchain 0) blockOnlyTxs "x" "y").map
      (fun r => (r.1, r.2.chain.length)) = some (true, 2) :=
  ⟨by decide,
    addBlock_always_succeeds (initialBlockchain 0) blockOnlyTxs "x" "y"
      (by decide) (by decide)⟩

/-- C2: `isAuthorized` returns `true` for every validator — including
one absent from the active set — because of the unconditional early
`return true`; the slot-based check the spec describes (embedded as
`isAuthorizedSlotCheck` from the unreachable statements) would reject
`B` and accept `A` on this state. -/
theorem isAuthorized_bypassed :
    (∀ (st : DPoS) (v : String) (t : Int), isAuthorized st v t = true) ∧
    scheduleAOnly.activeDelegates.contains "B" = false ∧
    isAuthorized scheduleAOnly "B" 0 = true ∧
    isAuthorizedSlotCheck scheduleAOnly "B" 0 = false ∧
    isAuthorizedSlotCheck scheduleAOnly "A" 0 = true :=
  ⟨fun _ _ _ => rfl, by decide, by decide, by decide, by decide⟩

/-- C3: the delegate shuffle is a function of the seed digest, which the
source derives from `Date.now()` — two different wall-clock instants
(here: two seeds, one all zeros, one whose window parses to 1) permute
the same delegate set differently, so two independent instances do not
agree. -/
theorem shuffleDelegates_seed_sensitive :
    shuffleDelegates seedZeros ["A", "B"] = ["B", "A"] ∧
    shuffleDelegates seedOneAt ["A", "B"] = ["A", "B"] ∧
    shuffleDelegates seedZeros ["A", "B"] ≠
      shuffleDelegates seedOneAt ["A", "B"] := by decide

/-- C7: with equal stakes the stable sort keeps `Map` insertion order,
so `B` (registered first) wins the single active slot even though the
address order would put `A` first; the unequal-stake example scenario
(`A` 20000, `B` 15000) does come out as the claim says. -/
theorem updateDelegates_ties_by_insertion :
    tieVotes.votes = [("B", 10), ("A", 10)] ∧
    (updateDelegates tieVotes seedZeros).activeDelegates = ["B"] ∧
    (updateDelegates tieVotes seedZeros).standbyDelegates = ["A"] ∧
    "A".data = ['A'] ∧ "B".data = ['B'] ∧ 'A' < 'B' ∧
    (updateDelegates exampleTwoVotes seedZeros).activeDelegates = ["A"] ∧
    (updateDelegates exampleTwoVotes seedZeros).standbyDelegates = ["B"] := by
  decide

/-- C5 counterexample: after a reorg installs a chain whose tip carries
`index = 99`, `addBlock` re-stamps the next block's index to the chain
length 2 — not to `latest().index + 1 = 100` as the claim states. -/
theorem addBlock_restamp_cex :
    replaceChain (initialBlockchain 0) [createGenesisBlock 0, blockIndex99] =
      some (true, stateIndex99) ∧
    (stateIndex99.chain.getLastD default).index = some 99 ∧
    (addBlock stateIndex99 blockNext "v" "w").map
      (fun r => (r.1, (r.2.chain.getLastD default).index)) =
      some (true, some 2) := by decide

/-- C5 amended: an accepted block is re-stamped with `index = len(local)`
(the chain length, which equals `latest().index + 1` only when block
indices are contiguous), its `previousHash` is overwritten with the
tip's hash instead of being rejected, and the pending pool afterwards is
the previous pool minus every transaction whose identity
(hash, falling back to full-content serialization) occurs in the block;
difficulty adjustment touches neither the chain nor the pool. -/
theorem addBlock_restamps (st : Blockchain) (b : Block) (v s : String)
    (prev : Block) (txs : List Tx) (hprev : st.chain.getLast? = some prev)
    (htxs : b.transactions = some txs) :
    addBlock st b v s = some (true, adjustDifficulty
      { st with
          chain := st.chain ++ [restampedBlock st prev b],
          currentTransactions := st.currentTransactions.filter
            (fun tx => !(txs.map txId).contains (txId tx)) }) ∧
    (restampedBlock st prev b).index = some (st.chain.length : Int) ∧
    (restampedBlock st prev b).previousHash = prev.hash ∧
    (restampedBlock st prev b).transactions = some txs ∧
    (adjustDifficulty
      { st with
          chain := st.chain ++ [restampedBlock st prev b],
          currentTransactions := st.currentTransactions.filter
            (fun tx => !(txs.map txId).contains (txId tx)) }).chain =
      st.chain ++ [restampedBlock st prev b] ∧
    (adjustDifficulty
      { st with
          chain := st.chain ++ [restampedBlock st prev b],
          currentTransactions := st.currentTransactions.filter
            (fun tx => !(txs.map txId).contains (txId tx))
        }).currentTransactions =
      st.currentTransactions.filter
        (fun tx => !(txs.map txId).contains (txId tx)) := by
  refine ⟨?_, rfl, rfl, htxs, adjustDifficulty_chain _, adjustDifficulty_pool _⟩
  simp [addBlock, restampedBlock, hprev, htxs]

/-- Witness for C5's amended statement: on a two-transaction pool, a
block with a mismatched `previousHash` carrying `pendingTxOne` is
appended with its hash link corrected to the genesis hash, its index
re-stamped to 1, and `pendingTxOne` (matched by hash) pruned from the
pool while `pendingTxTwo` stays. -/
theorem addBlock_restamps_witness :
    statePoolTwo.chain.getLast? = some (createGenesisBlock 0) ∧
    blockMismatch.transactions = some [pendingTxOne] ∧
    addBlock statePoolTwo blockMismatch "v" "w" = some (true,
      adjustDifficulty
        { statePoolTwo with
            chain := statePoolTwo.chain ++
              [restampedBlock statePoolTwo (createGenesisBlock 0)
                blockMismatch],
            currentTransactions := statePoolTwo.currentTransactions.filter
              (fun tx => !([pendingTxOne].map txId).contains (txId tx)) }) ∧
    (addBlock statePoolTwo blockMismatch "v" "w").map
      (fun r => ((r.2.chain.getLastD default).index,
        (r.2.chain.getLastD default).previousHash,
        r.2.currentTransactions)) =
      some (some 1, some zeros64, [pendingTxTwo]) :=
  ⟨by decide, by decide,
    (addBlock_restamps statePoolTwo blockMismatch "v" "w"
      (createGenesisBlock 0) [pendingTxOne] (by decide) (by decide)).1,
    by decide⟩

theorem mem_mapSet :
    ∀ (m : List (String × Int)) (k : String) (v : Int) (p : String × Int),
      p ∈ mapSet m k v → p = (k, v) ∨ p ∈ m
  | [], k, v, p, hp => by
    simp [mapSet] at hp
    exact Or.inl hp
  | (k', v') :: rest, k, v, p, hp => by
    rw [mapSet] at hp
    split at hp
    · rcases List.mem_cons.mp hp with h | h
      · exact Or.inl h
      · exact Or.inr (List.mem_cons_of_mem _ h)
    · rcases List.mem_cons.mp hp with h | h
      · exact Or.inr (by simp [h])
      · rcases mem_mapSet rest k v p h with h' | h'
        · exact Or.inl h'
        · exact Or.inr (List.mem_cons_of_mem _ h')

theorem mem_mapDelete :
    ∀ (m : List (String × Int)) (k : String) (p : String × Int),
      p ∈ mapDelete m k → p ∈ m
  | [], k, p, hp => by simp [mapDelete] at hp
  | (k', v') :: rest, k, p, hp => by
    rw [mapDelete] at hp
    split at hp
    · exact List.mem_cons_of_mem _ hp
    · rcases List.mem_cons.mp hp with h | h
      · simp [h]
      · exact List.mem_cons_of_mem _ (mem_mapDelete rest k p h)

theorem mapGet_mem (m : List (String × Int)) (k : String) (v : Int)
    (h : mapGet m k = some v) : (k, v) ∈ m := by
  unfold mapGet at h
  cases hf : m.find? (fun p => p.1 = k) with
  | none => rw [hf] at h; simp at h
  | some p =>
    rw [hf] at h
    simp only [Option.map_some', Option.some.injEq] at h
    have hk : p.1 = k := by simpa using List.find?_some hf
    have hm := List.mem_of_find?_eq_some hf
    have hpkv : p = (k, v) := by
      cases p
      simp_all
    rwa [hpkv] at hm

theorem ledgerPos_applyVoteOp (st : DPoS) (op : VoteOp)
    (hpos : ∀ p ∈ st.votes, 0 < p.2) (hop : regStakePos op = true) :
    ∀ p ∈ (applyVoteOp st op).votes, 0 < p.2 := by
  cases op with
  | reg voter delegate stake =>
    intro p hp
    simp only [applyVoteOp, registerVote] at hp
    have hcur : 0 ≤ (mapGet st.votes delegate).getD 0 := by
      cases hg : mapGet st.votes delegate with
      | none => simp
      | some w =>
        have := hpos _ (mapGet_mem _ _ _ hg)
        simpa using le_of_lt this
    have hstake : 0 < stake := by simpa [regStakePos] using hop
    rcases mem_mapSet st.votes delegate _ p hp with h | h
    · rw [h]
      simp only []
      omega
    · exact hpos p h
  | rem voter delegate stake =>
    intro p hp
    simp only [applyVoteOp, removeVote] at hp
    by_cases hz : max 0 ((mapGet st.votes delegate).getD 0 - stake) = 0
    · rw [if_pos hz] at hp
      exact hpos p (mem_mapDelete _ _ _ hp)
    · rw [if_neg hz] at hp
      rcases mem_mapSet st.votes delegate _ p hp with h | h
      · rw [h]
        exact lt_of_le_of_ne (le_max_left _ _) (Ne.symm hz)
      · exact hpos p h

theorem ledgerPos_foldl :
    ∀ (ops : List VoteOp) (st : DPoS),
      (∀ p ∈ st.votes, 0 < p.2) → (∀ op ∈ ops, regStakePos op = true) →
      ∀ p ∈ (ops.foldl applyVoteOp st).votes, 0 < p.2
  | [], st, hpos, _ => by simpa using hpos
  | op :: rest, st, hpos, hops => by
    rw [List.foldl_cons]
    exact ledgerPos_foldl rest _
      (ledgerPos_applyVoteOp st op hpos (hops op (by simp)))
      (fun o ho => hops o (by simp [ho]))

/-- C4 counterexample: `registerVote` with a zero stake delta creates a
ledger entry with stake 0, so "an entry exists iff its stake is strictly
positive" fails for unrestricted operation sequences. -/
theorem registerVote_zero_stake_cex :
    hasDelegate (applyVoteOps [VoteOp.reg "v" "D" 0]) "D" = true ∧
    stakeOf (applyVoteOps [VoteOp.reg "v" "D" 0]) "D" = 0 := by decide

/-- C4 amended: after any sequence of `registerVote`/`removeVote` calls
from the empty ledger in which every `registerVote` stake delta is
strictly positive (`removeVote` deltas unrestricted), every stored stake
is strictly positive — hence non-negative — and a delegate has a ledger
entry iff its stake is strictly positive. -/
theorem voteLedger_pos_invariant (ops : List VoteOp)
    (h : ops.all regStakePos = true) :
    (∀ p ∈ (applyVoteOps ops).votes, 0 < p.2) ∧
    (∀ d : String,
      hasDelegate (applyVoteOps ops) d = true ↔
        0 < stakeOf (applyVoteOps ops) d) := by
  have hall : ∀ op ∈ ops, regStakePos op = true := List.all_eq_true.mp h
  have hpos := ledgerPos_foldl ops initialDPoS (by simp [initialDPoS]) hall
  refine ⟨hpos, fun d => ⟨fun hd => ?_, fun hs => ?_⟩⟩
  · unfold hasDelegate at hd
    rw [List.any_eq_true] at hd
    obtain ⟨p, hpmem, hpk⟩ := hd
    have hk : p.1 = d := by simpa using hpk
    unfold stakeOf mapGet
    cases hf : (applyVoteOps ops).votes.find? (fun q => q.1 = d) with
    | none =>
      exfalso
      have := List.find?_eq_none.mp hf p hpmem
      simp [hk] at this
    | some q =>
      have hq2 : 0 < q.2 := hpos q (List.mem_of_find?_eq_some hf)
      simpa using hq2
  · unfold stakeOf mapGet at hs
    cases hf : (applyVoteOps ops).votes.find? (fun q => q.1 = d) with
    | none => rw [hf] at hs; simp at hs
    | some q =>
      have hqk := List.find?_some hf
      unfold hasDelegate
      rw [List.any_eq_true]
      exact ⟨q, List.mem_of_find?_eq_some hf, hqk⟩

/-- Witness for C4's amended statement on a concrete positive-stake
sequence; removing `B`'s full stake leaves it absent from the ledger,
not present with zero. -/
theorem voteLedger_pos_invariant_witness :
    voteOpsExample.all regStakePos = true ∧
    (hasDelegate (applyVoteOps voteOpsExample) "A" = true ↔
      0 < stakeOf (applyVoteOps voteOpsExample) "A") ∧
    hasDelegate (applyVoteOps voteOpsExample) "B" = false :=
  ⟨by decide,
    (voteLedger_pos_invariant voteOpsExample (by decide)).2 "A",
    by decide⟩

end MyCoin
